import Mathlib

/-!
Shallow embedding of `src/lightson.py`, a breadth-first-search solver for
the "Lights On" puzzle (the all-lights-on variant of Lights Out).

Pure functions of the Python source become Lean functions; the mutable
solver object (`LightsOnSolutionAlgorithm`) becomes explicit state
passing; Python's arbitrary-precision integers become `Nat`/`Int`;
Python's `None` becomes `Option.none`; the solver's unbounded `while`
loop is given an explicit fuel parameter and returns `none` when the
fuel runs out (a modeling artifact: the Python loop simply keeps
running until the queue is empty).
-/

/-- `Coordinates = Tuple[int, int]` from the source: an (x, y) pair of
Python ints. -/
abbrev Coordinates := Int × Int

/-- `BoardState` from the source.  The Python class carries the grid
dimensions, the bit-packed board (`_board`, bit `width*y + x` is the
cell at (x, y)), and three mutable solution-metadata attributes that
start out as `None`.  `next_solution_board` holds a reference to
another `BoardState`; in the program these references never form a
cycle (each board only ever references a board created before it), so
an inductive type models the heap structure faithfully. -/
inductive BoardState : Type where
  | mk (width : Nat) (height : Nat) (board : Nat)
       (steps_from_solution : Option Nat)
       (next_solution_coordinates : Option Coordinates)
       (next_solution_board : Option BoardState)

/-- `self.width`. -/
def BoardState.width : BoardState → Nat
  | .mk w _ _ _ _ _ => w

/-- `self.height`. -/
def BoardState.height : BoardState → Nat
  | .mk _ h _ _ _ _ => h

/-- `self._board` (the bit-packed cells). -/
def BoardState.board : BoardState → Nat
  | .mk _ _ b _ _ _ => b

/-- `self.steps_from_solution`. -/
def BoardState.steps_from_solution : BoardState → Option Nat
  | .mk _ _ _ st _ _ => st

/-- `self.next_solution_coordinates`. -/
def BoardState.next_solution_coordinates : BoardState → Option Coordinates
  | .mk _ _ _ _ nc _ => nc

/-- `self.next_solution_board`. -/
def BoardState.next_solution_board : BoardState → Option BoardState
  | .mk _ _ _ _ _ nb => nb

/-- `BoardState.__eq__`: Python `==` on board states compares `_board`,
`width` and `height` (the solution-metadata attributes are ignored). -/
def BoardState.pyEq (s other : BoardState) : Bool :=
  (s.board == other.board) && (s.width == other.width) && (s.height == other.height)

/-- `BoardState.solution_board(width, height)`: the all-lights-on board,
with `steps_from_solution = 0` and no predecessor.  The Python literal
`int("0b" + "1" * width * height, base=2)` equals `2 ^ (width * height) - 1`
(for `width * height = 0` Python would raise `ValueError` on the empty
literal; every claim about the solver concerns `width * height ≥ 1`). -/
def BoardState.solution_board (width height : Nat) : BoardState :=
  .mk width height (2 ^ (width * height) - 1) (some 0) none none

/-- `BoardState._coordinates_bit`: `1 << (width * y + x)`.  Python
raises `ValueError` on a negative shift; the callers below either
filter coordinates to the grid first (`invert` via `click`) or guard
the sign themselves (`is_set`), so the `Int.toNat` clamp is never
exercised on a negative index. -/
def BoardState.coordinates_bit (s : BoardState) (coordinates : Coordinates) : Nat :=
  1 <<< ((s.width : Int) * coordinates.2 + coordinates.1).toNat

/-- `BoardState._invert_mask`: OR together the bits of the listed
coordinates. -/
def BoardState.invert_mask (s : BoardState) (coordinates_list : List Coordinates) : Nat :=
  coordinates_list.foldl (fun mask c => mask ||| s.coordinates_bit c) 0

/-- `BoardState.coordinates()`: all grid coordinates, x-major exactly as
the Python generator yields them. -/
def BoardState.coordinates (s : BoardState) : List Coordinates :=
  (List.range s.width).flatMap fun (x : Nat) =>
    (List.range s.height).map fun (y : Nat) => ((x : Int), (y : Int))

/-- `BoardState.invert`: a fresh `BoardState` (metadata reset to `None`
by `__init__`) whose board is the original XORed with the mask of the
given coordinates. -/
def BoardState.invert (s : BoardState) (coordinates_list : List Coordinates) : BoardState :=
  .mk s.width s.height (s.board ^^^ s.invert_mask coordinates_list) none none none

/-- `BoardState.is_set`: `bool(self._board & self._coordinates_bit(c))`.
No bounds check is performed; the only failure Python can produce here
is a `ValueError` from the negative shift when `width * y + x < 0`,
modeled as `none`. -/
def BoardState.is_set (s : BoardState) (coordinates : Coordinates) : Option Bool :=
  if (s.width : Int) * coordinates.2 + coordinates.1 < 0 then none
  else some (s.board &&& s.coordinates_bit coordinates != 0)

/-- `BoardState.key`: the f-string `f"{width}:{height}:{_board}"`. -/
def BoardState.key (s : BoardState) : String :=
  Nat.repr s.width ++ ":" ++ Nat.repr s.height ++ ":" ++ Nat.repr s.board

/-- `BoardState.valid_coordinates`: `0 <= x < width and 0 <= y < height`. -/
def BoardState.valid_coordinates (s : BoardState) (coordinates : Coordinates) : Bool :=
  decide (0 ≤ coordinates.1 ∧ coordinates.1 < (s.width : Int)) &&
  decide (0 ≤ coordinates.2 ∧ coordinates.2 < (s.height : Int))

/-- The five-element candidate list `[(x-1,y), (x,y), (x+1,y), (x,y-1), (x,y+1)]`
built inside `BoardClicker.click`. -/
def clickCandidates (c : Coordinates) : List Coordinates :=
  [(c.1 - 1, c.2), (c.1, c.2), (c.1 + 1, c.2), (c.1, c.2 - 1), (c.1, c.2 + 1)]

/-- `BoardClicker.click`: filter the candidate neighbourhood to the
grid, then invert those cells. -/
def BoardClicker.click (board_state : BoardState) (coordinates : Coordinates) : BoardState :=
  board_state.invert
    ((clickCandidates coordinates).filter fun c => board_state.valid_coordinates c)

/-- Rebuild a board with the three solution-metadata attributes
assigned, as the loop body of `_process_board_state` does to each
freshly clicked board. -/
def BoardState.withSolution (s : BoardState) (steps : Option Nat)
    (nc : Option Coordinates) (nb : Option BoardState) : BoardState :=
  .mk s.width s.height s.board steps nc nb

/-- `board_state.steps_from_solution + 1` as the source computes it.
In Python this would raise `TypeError` on `None`; every board the
solver ever processes has its step count assigned, so the `none` case
is never exercised. -/
def optSucc : Option Nat → Option Nat
  | some n => some (n + 1)
  | none => none

/-- `existing.steps_from_solution > potential.steps_from_solution` as
the source compares it (two Python ints at runtime; comparing `None`
would raise `TypeError` and is never exercised). -/
def optGT : Option Nat → Option Nat → Bool
  | some a, some b => decide (b < a)
  | _, _ => false

/-- The solver object: `discovered_boards` (a Python dict, modeled as
an association list in insertion order, keys unique) and
`board_processing_queue` (a Python list used FIFO). -/
structure LightsOnSolutionAlgorithm : Type where
  discovered_boards : List (String × BoardState)
  board_processing_queue : List BoardState

/-- `dict.get(key, None)` on `discovered_boards`. -/
def dictGet (d : List (String × BoardState)) (k : String) : Option BoardState :=
  (d.find? fun p => p.1 == k).map fun p => p.2

/-- `dict[key] = value` when `key` is already present: replace in place. -/
def dictSet (d : List (String × BoardState)) (k : String) (v : BoardState) :
    List (String × BoardState) :=
  d.map fun p => if p.1 == k then (p.1, v) else p

namespace LightsOnSolutionAlgorithm

/-- The `potential_new_board` local of `_process_board_state`'s loop
body: the clicked board with its three solution-metadata attributes
assigned. -/
def potentialNewBoard (board_state : BoardState) (c : Coordinates) : BoardState :=
  (BoardClicker.click board_state c).withSolution
    (optSucc board_state.steps_from_solution) (some c) (some board_state)

/-- One iteration of the `for c in board_state.coordinates()` loop in
`_process_board_state`: click, assign the metadata, then either record
the new board (and enqueue it) or relax an existing entry. -/
def processClick (alg : LightsOnSolutionAlgorithm) (board_state : BoardState)
    (c : Coordinates) : LightsOnSolutionAlgorithm :=
  let potential_new_board := potentialNewBoard board_state c
  match dictGet alg.discovered_boards potential_new_board.key with
  | none =>
      { discovered_boards :=
          alg.discovered_boards ++ [(potential_new_board.key, potential_new_board)]
        board_processing_queue :=
          alg.board_processing_queue ++ [potential_new_board] }
  | some existing_discovered_board =>
      if optGT existing_discovered_board.steps_from_solution
          potential_new_board.steps_from_solution then
        { alg with discovered_boards :=
            dictSet alg.discovered_boards potential_new_board.key potential_new_board }
      else alg

/-- `LightsOnSolutionAlgorithm._process_board_state`. -/
def process_board_state (alg : LightsOnSolutionAlgorithm)
    (board_state : BoardState) : LightsOnSolutionAlgorithm :=
  board_state.coordinates.foldl (fun a c => a.processClick board_state c) alg

/-- The `while len(self.board_processing_queue) > 0` loop of
`_find_board_solution`: pop the head of the queue and process it.  The
fuel bound is a modeling artifact; `none` means the fuel ran out before
the queue emptied. -/
def runQueue : Nat → LightsOnSolutionAlgorithm → Option LightsOnSolutionAlgorithm
  | fuel, alg =>
    match fuel, alg.board_processing_queue with
    | _, [] => some alg
    | 0, _ :: _ => none
    | fuel + 1, current_board :: rest =>
        runQueue fuel
          (process_board_state { alg with board_processing_queue := rest } current_board)

/-- `LightsOnSolutionAlgorithm._find_board_solution`.  Returns the
updated solver state together with the Python return value; the outer
`none` only signals fuel exhaustion. -/
def find_board_solution (fuel : Nat) (alg : LightsOnSolutionAlgorithm)
    (board_state : BoardState) :
    Option (LightsOnSolutionAlgorithm × Option BoardState) :=
  match dictGet alg.discovered_boards board_state.key with
  | some existing_solution => some (alg, some existing_solution)
  | none =>
    let solution_board := BoardState.solution_board board_state.width board_state.height
    match dictGet alg.discovered_boards solution_board.key with
    | some _ => some (alg, none)
    | none =>
      match runQueue fuel
          { alg with board_processing_queue :=
              alg.board_processing_queue ++ [solution_board] } with
      | none => none
      | some alg2 => some (alg2, dictGet alg2.discovered_boards board_state.key)

end LightsOnSolutionAlgorithm

/-- The `while current_bs is not None` walk in `find_solution`: collect
the board and follow `next_solution_board` links. -/
def BoardState.solutionWalk : BoardState → List BoardState
  | .mk w h b st nc none => [.mk w h b st nc none]
  | .mk w h b st nc (some nb) => .mk w h b st nc (some nb) :: nb.solutionWalk

namespace LightsOnSolutionAlgorithm

/-- `LightsOnSolutionAlgorithm.find_solution`: walk the solution chain
starting from `_find_board_solution`'s result and return
`solution_list or None`.  The outer `none` only signals fuel
exhaustion. -/
def find_solution (fuel : Nat) (alg : LightsOnSolutionAlgorithm)
    (board_state : BoardState) :
    Option (LightsOnSolutionAlgorithm × Option (List BoardState)) :=
  (alg.find_board_solution fuel board_state).map fun r =>
    (r.1,
      let solution_list : List BoardState :=
        match r.2 with
        | none => []
        | some bs => bs.solutionWalk
      if solution_list.isEmpty then none else some solution_list)

end LightsOnSolutionAlgorithm

/-- Every value stored in the discovered-set sits under its own key —
an invariant of the solver's dictionary (verification helper: the
Python dict is only ever written via `d[board.key] = board`). -/
def WellKeyed (alg : LightsOnSolutionAlgorithm) : Prop :=
  ∀ k v, dictGet alg.discovered_boards k = some v → v.key = k

/-! ### Concrete 1×1 run of the solver

These values are what the Python program actually builds when the
solver is asked about the 1×1 board (checked below by evaluation).
Note that the BFS root `root11` is put on the processing queue but
never inserted into `discovered_boards`; the solved bit pattern is
re-discovered two clicks later as `again11`. -/

/-- The 1×1 solved board object created by `solution_board(1, 1)`. -/
def root11 : BoardState := .mk 1 1 1 (some 0) none none

/-- The all-off 1×1 board as BFS discovers it, one click from solved. -/
def off11 : BoardState := .mk 1 1 0 (some 1) (some (0, 0)) (some root11)

/-- The solved 1×1 bit pattern as BFS re-discovers it: two clicks from
the root, with a predecessor link back to `off11`. -/
def again11 : BoardState := .mk 1 1 1 (some 2) (some (0, 0)) (some off11)

/-- A caller-constructed 1×1 query equal (as a board) to the solved
state: no solution metadata. -/
def query11 : BoardState := .mk 1 1 1 none none none

/-- The same query with arbitrary junk metadata attached. -/
def query11meta : BoardState := .mk 1 1 1 (some 7) (some (5, 5)) (some root11)

/-- A 1×1 query whose key "1:1:2" can never be discovered. -/
def query112 : BoardState := .mk 1 1 2 none none none

/-- The solver state the program reaches after its first 1×1 query. -/
def solver11 : LightsOnSolutionAlgorithm :=
  ⟨[("1:1:0", off11), ("1:1:1", again11)], []⟩

/-- Numeric value of a decimal digit character (used to read a decimal
key component back; verification helper, not part of the source). -/
def digitVal (c : Char) : Nat := c.toNat - '0'.toNat

/-- Value of a most-significant-first decimal digit string
(verification helper, not part of the source). -/
def decimalVal (l : List Char) : Nat := l.foldl (fun a c => 10 * a + digitVal c) 0

/-! ### Basic facts about `click` and the board bit model -/

theorem string_data_inj {a b : String} (h : a.data = b.data) : a = b := by
  cases a
  cases b
  exact congrArg String.mk h

theorem BoardState.width_invert (s : BoardState) (l : List Coordinates) :
    (s.invert l).width = s.width := rfl

theorem BoardState.height_invert (s : BoardState) (l : List Coordinates) :
    (s.invert l).height = s.height := rfl

theorem BoardClicker.width_click (s : BoardState) (c : Coordinates) :
    (BoardClicker.click s c).width = s.width := rfl

theorem BoardClicker.height_click (s : BoardState) (c : Coordinates) :
    (BoardClicker.click s c).height = s.height := rfl

/-- C4: `click` is an involution with respect to the Python `==` on
board states (`__eq__` compares `_board`, `width`, `height`). -/
theorem click_involution (s : BoardState) (c : Coordinates) :
    (BoardClicker.click (BoardClicker.click s c) c).pyEq s = true := by
  cases s with
  | mk w h b st nc nb =>
    simp [BoardClicker.click, BoardState.invert, BoardState.pyEq, BoardState.board,
      BoardState.width, BoardState.height, BoardState.invert_mask,
      BoardState.valid_coordinates, BoardState.coordinates_bit, Nat.xor_cancel_right]

theorem and_one_shiftLeft_ne (a k : Nat) : (a &&& 1 <<< k != 0) = a.testBit k := by
  rw [Nat.shiftLeft_eq, one_mul, Nat.and_two_pow]
  cases h : a.testBit k <;> simp [Nat.pos_iff_ne_zero, Nat.pow_eq_zero]

/-- `is_set` reads the bit at index `width * y + x` whenever that index
is nonnegative. -/
theorem BoardState.is_set_eq_testBit (s : BoardState) (d : Coordinates)
    (hd : 0 ≤ (s.width : Int) * d.2 + d.1) :
    s.is_set d = some (s.board.testBit ((s.width : Int) * d.2 + d.1).toNat) := by
  rw [BoardState.is_set, if_neg (by omega), BoardState.coordinates_bit,
    and_one_shiftLeft_ne]

theorem foldl_or_testBit (f : Coordinates → Nat) (l : List Coordinates)
    (init : Nat) (i : Nat) :
    (l.foldl (fun m c => m ||| f c) init).testBit i =
      (init.testBit i || l.any fun c => (f c).testBit i) := by
  induction l generalizing init with
  | nil => simp
  | cons a t ih => simp [ih, Nat.testBit_or, Bool.or_assoc]

theorem BoardState.invert_mask_testBit (s : BoardState) (l : List Coordinates) (i : Nat) :
    (s.invert_mask l).testBit i =
      (l.any fun c => decide (((s.width : Int) * c.2 + c.1).toNat = i)) := by
  rw [BoardState.invert_mask, foldl_or_testBit]
  simp [BoardState.coordinates_bit, Nat.shiftLeft_eq, one_mul, Nat.testBit_two_pow]

/-- The bit-index map is injective on in-bounds coordinates. -/
theorem index_inj {w h : Nat} {d e : Coordinates}
    (hd1 : 0 ≤ d.1) (hd1w : d.1 < (w : Int)) (hd2 : 0 ≤ d.2) (_hd2h : d.2 < (h : Int))
    (he1 : 0 ≤ e.1) (he1w : e.1 < (w : Int)) (he2 : 0 ≤ e.2) (_he2h : e.2 < (h : Int))
    (heq : ((w : Int) * e.2 + e.1).toNat = ((w : Int) * d.2 + d.1).toNat) : e = d := by
  have hw : (0 : Int) < w := lt_of_le_of_lt he1 he1w
  have hde : 0 ≤ (w : Int) * d.2 + d.1 :=
    add_nonneg (mul_nonneg (by positivity) hd2) hd1
  have hee : 0 ≤ (w : Int) * e.2 + e.1 :=
    add_nonneg (mul_nonneg (by positivity) he2) he1
  have hInt : (w : Int) * e.2 + e.1 = (w : Int) * d.2 + d.1 := by
    have := congrArg (fun n : Nat => (n : Int)) heq
    simpa [Int.toNat_of_nonneg hde, Int.toNat_of_nonneg hee] using this
  have hdiv : ∀ (x y : Int), 0 ≤ x → x < (w : Int) →
      ((w : Int) * y + x) / w = y ∧ ((w : Int) * y + x) % w = x := by
    intro x y hx hxw
    constructor
    · rw [add_comm, Int.add_mul_ediv_left x y (ne_of_gt hw),
        Int.ediv_eq_zero_of_lt hx hxw, zero_add]
    · rw [add_comm, Int.add_mul_emod_self_left, Int.emod_eq_of_lt hx hxw]
  have h2 : e.2 = d.2 := by
    have h1 := (hdiv e.1 e.2 he1 he1w).1
    have h2 := (hdiv d.1 d.2 hd1 hd1w).1
    rw [← h1, ← h2, hInt]
  have h1 : e.1 = d.1 := by
    have h1 := (hdiv e.1 e.2 he1 he1w).2
    have h2 := (hdiv d.1 d.2 hd1 hd1w).2
    rw [← h1, ← h2, hInt]
  exact Prod.ext h1 h2

/-- C5: clicking at `c` keeps the dimensions and flips exactly the
in-bounds members of the five-cell neighbourhood of `c`; every other
in-bounds cell keeps its value.  (The input state is untouched: `click`
builds a fresh state, which the pure embedding makes implicit.) -/
theorem click_toggles_neighbors (s : BoardState) (c d : Coordinates)
    (hd : s.valid_coordinates d = true) :
    (BoardClicker.click s c).width = s.width ∧
    (BoardClicker.click s c).height = s.height ∧
    (BoardClicker.click s c).is_set d =
      (s.is_set d).map fun bb => xor (decide (d ∈ clickCandidates c)) bb := by
  refine ⟨BoardClicker.width_click s c, BoardClicker.height_click s c, ?_⟩
  cases s with
  | mk w h b st nc nb =>
    have hd' := hd
    simp only [BoardState.valid_coordinates, BoardState.width, BoardState.height,
      Bool.and_eq_true, decide_eq_true_eq] at hd'
    have hidx : 0 ≤ (w : Int) * d.2 + d.1 :=
      add_nonneg (mul_nonneg (by positivity) hd'.2.1) hd'.1.1
    simp only [BoardClicker.click, BoardState.invert]
    rw [BoardState.is_set_eq_testBit _ d (by simpa [BoardState.width] using hidx),
      BoardState.is_set_eq_testBit _ d (by simpa [BoardState.width] using hidx)]
    simp only [BoardState.width, BoardState.board, Option.map_some]
    rw [Nat.testBit_xor, BoardState.invert_mask_testBit]
    congr 1
    have hany : ((((clickCandidates c).filter fun e =>
          (BoardState.mk w h b st nc nb).valid_coordinates e).any fun e =>
            decide ((((BoardState.mk w h b st nc nb).width : Int) * e.2 + e.1).toNat
              = ((w : Int) * d.2 + d.1).toNat))) = decide (d ∈ clickCandidates c) := by
      by_cases hmem : d ∈ clickCandidates c
      · rw [decide_eq_true hmem, List.any_eq_true]
        exact ⟨d, List.mem_filter.mpr ⟨hmem, hd⟩, by simp [BoardState.width]⟩
      · rw [decide_eq_false hmem, List.any_eq_false]
        intro e heL
        obtain ⟨hecand, hevalid⟩ := List.mem_filter.mp heL
        simp only [BoardState.valid_coordinates, BoardState.width, BoardState.height,
          Bool.and_eq_true, decide_eq_true_eq] at hevalid
        simp only [BoardState.width]
        intro heq
        exact hmem (index_inj hd'.1.1 hd'.1.2 hd'.2.1 hd'.2.2
          hevalid.1.1 hevalid.1.2 hevalid.2.1 hevalid.2.2 (of_decide_eq_true heq) ▸ hecand)
    rw [hany]
    exact Bool.xor_comm _ _

/-- Witness for C5 at a concrete input: a 2×2 board with only cell
(0, 1) on, clicked at (0, 0), observed at the in-bounds cell (0, 1). -/
theorem click_toggles_neighbors_witness :
    (BoardClicker.click (BoardState.mk 2 2 4 none none none) ((0 : Int), (0 : Int))).width
        = (BoardState.mk 2 2 4 none none none).width ∧
    (BoardClicker.click (BoardState.mk 2 2 4 none none none) ((0 : Int), (0 : Int))).height
        = (BoardState.mk 2 2 4 none none none).height ∧
    (BoardClicker.click (BoardState.mk 2 2 4 none none none) ((0 : Int), (0 : Int))).is_set
        ((0 : Int), (1 : Int)) =
      ((BoardState.mk 2 2 4 none none none).is_set ((0 : Int), (1 : Int))).map
        fun bb => xor (decide (((0 : Int), (1 : Int)) ∈ clickCandidates ((0 : Int), (0 : Int)))) bb :=
  click_toggles_neighbors (BoardState.mk 2 2 4 none none none)
    ((0 : Int), (0 : Int)) ((0 : Int), (1 : Int)) (by decide)

/-! ### C6: what `is_set` does on out-of-range coordinates -/

/-- C6 counterexample: on a 2×2 board whose only lit cell is (0, 1)
(`_board = 4`), the out-of-range query `is_set (2, 0)` does not fail at
all — it returns `some true`, the very bit that belongs to cell (0, 1). -/
theorem is_set_out_of_range_counterexample :
    (BoardState.mk 2 2 4 none none none).valid_coordinates ((2 : Int), (0 : Int)) = false ∧
    (BoardState.mk 2 2 4 none none none).is_set ((2 : Int), (0 : Int)) = some true ∧
    (BoardState.mk 2 2 4 none none none).is_set ((0 : Int), (1 : Int)) = some true := by
  refine ⟨by decide, by decide, by decide⟩

/-- C6 amended: `is_set` performs no bounds validation.  The
out-of-range coordinate (width, 0) has bit index `width·0 + width =
width`, the same index as the in-bounds cell (0, 1), so the query
returns that other cell's bit instead of failing (the only failure the
code can produce is Python's `ValueError` on a negative shift, when
`width·y + x < 0` — never an `OutOfRange` error). -/
theorem is_set_no_bounds_check (s : BoardState)
    (hw : 1 ≤ s.width) (hh : 2 ≤ s.height) :
    s.valid_coordinates ((s.width : Int), 0) = false ∧
    s.valid_coordinates ((0 : Int), (1 : Int)) = true ∧
    s.is_set ((s.width : Int), 0) = s.is_set ((0 : Int), (1 : Int)) := by
  cases s with
  | mk w h b st nc nb =>
    simp only [BoardState.width, BoardState.height] at hw hh
    refine ⟨?_, ?_, ?_⟩
    · simp [BoardState.valid_coordinates, BoardState.width, BoardState.height]
    · simp only [BoardState.valid_coordinates, BoardState.width, BoardState.height,
        Bool.and_eq_true, decide_eq_true_eq]
      omega
    · simp only [BoardState.is_set, BoardState.coordinates_bit, BoardState.width,
        BoardState.board]
      norm_num

/-! ### C8: the string key is injective in (width, height, board)

The key is the decimal f-string `f"{width}:{height}:{_board}"`; the
separator `':'` is not a decimal digit, so the three components can be
recovered from the string. -/

theorem mem_toDigitsCore (f : Nat) : ∀ (n : Nat) (ds : List Char) (c : Char),
    c ∈ Nat.toDigitsCore 10 f n ds → (∃ k, k < 10 ∧ c = Nat.digitChar k) ∨ c ∈ ds := by
  induction f with
  | zero => exact fun n ds c h => Or.inr h
  | succ f ih =>
    intro n ds c h
    rw [Nat.toDigitsCore] at h
    by_cases h0 : n / 10 = 0
    · rw [if_pos h0] at h
      rcases List.mem_cons.mp h with h | h
      · exact Or.inl ⟨n % 10, Nat.mod_lt _ (by norm_num), h⟩
      · exact Or.inr h
    · rw [if_neg h0] at h
      rcases ih (n / 10) (Nat.digitChar (n % 10) :: ds) c h with h | h
      · exact Or.inl h
      · rcases List.mem_cons.mp h with h | h
        · exact Or.inl ⟨n % 10, Nat.mod_lt _ (by norm_num), h⟩
        · exact Or.inr h

theorem digitChar_ne_colon : ∀ k < 10, Nat.digitChar k ≠ ':' := by decide

theorem colon_not_mem_repr (n : Nat) : ':' ∉ (Nat.repr n).data := by
  intro h
  have h' : ':' ∈ Nat.toDigitsCore 10 (n + 1) n [] := h
  rcases mem_toDigitsCore (n + 1) n [] ':' h' with ⟨k, hk, he⟩ | h''
  · exact digitChar_ne_colon k hk he.symm
  · exact absurd h'' (List.not_mem_nil _)

theorem toDigitsCore_append (f : Nat) : ∀ (n : Nat) (ds : List Char),
    Nat.toDigitsCore 10 f n ds = Nat.toDigitsCore 10 f n [] ++ ds := by
  induction f with
  | zero => intro n ds; rfl
  | succ f ih =>
    intro n ds
    rw [Nat.toDigitsCore, Nat.toDigitsCore]
    by_cases h0 : n / 10 = 0
    · rw [if_pos h0, if_pos h0]; rfl
    · rw [if_neg h0, if_neg h0, ih (n / 10) [Nat.digitChar (n % 10)],
        ih (n / 10) (Nat.digitChar (n % 10) :: ds), List.append_assoc]
      rfl

theorem digitVal_digitChar : ∀ k < 10, digitVal (Nat.digitChar k) = k := by decide

theorem decimalVal_append_singleton (l : List Char) (c : Char) :
    decimalVal (l ++ [c]) = 10 * decimalVal l + digitVal c := by
  simp [decimalVal, List.foldl_append]

theorem decimalVal_toDigitsCore (f : Nat) : ∀ n < f,
    decimalVal (Nat.toDigitsCore 10 f n []) = n := by
  induction f with
  | zero => omega
  | succ f ih =>
    intro n hn
    rw [Nat.toDigitsCore]
    by_cases h0 : n / 10 = 0
    · rw [if_pos h0]
      have hlt : n < 10 := by omega
      have : n % 10 = n := Nat.mod_eq_of_lt hlt
      simp [decimalVal, this, digitVal_digitChar n hlt]
    · rw [if_neg h0, toDigitsCore_append f (n / 10) [Nat.digitChar (n % 10)],
        decimalVal_append_singleton,
        ih (n / 10) (by omega),
        digitVal_digitChar (n % 10) (Nat.mod_lt _ (by norm_num))]
      omega

theorem repr_injective {m n : Nat} (h : Nat.repr m = Nat.repr n) : m = n := by
  have hd : Nat.toDigitsCore 10 (m + 1) m [] = Nat.toDigitsCore 10 (n + 1) n [] :=
    congrArg String.data h
  have hm := decimalVal_toDigitsCore (m + 1) m (Nat.lt_succ_self m)
  have hn := decimalVal_toDigitsCore (n + 1) n (Nat.lt_succ_self n)
  rw [← hm, ← hn, hd]

theorem append_colon_inj : ∀ (a a' r r' : List Char), ':' ∉ a → ':' ∉ a' →
    a ++ ':' :: r = a' ++ ':' :: r' → a = a' ∧ r = r' := by
  intro a
  induction a with
  | nil =>
    intro a' r r' _ ha' h
    cases a' with
    | nil => simpa using h
    | cons y u =>
      simp only [List.nil_append, List.cons_append, List.cons.injEq] at h
      exact absurd (h.1 ▸ List.mem_cons_self y u) ha'
  | cons x t ih =>
    intro a' r r' ha ha' h
    cases a' with
    | nil =>
      simp only [List.nil_append, List.cons_append, List.cons.injEq] at h
      exact absurd (h.1 ▸ List.mem_cons_self x t) ha
    | cons y u =>
      simp only [List.cons_append, List.cons.injEq] at h
      have ht := ih u r r' (fun hm => ha (List.mem_cons_of_mem x hm))
        (fun hm => ha' (List.mem_cons_of_mem y hm)) h.2
      exact ⟨by rw [h.1, ht.1], ht.2⟩

theorem key_fields_eq {s t : BoardState} (h : s.key = t.key) :
    s.width = t.width ∧ s.height = t.height ∧ s.board = t.board := by
  have hd := congrArg String.data h
  simp only [BoardState.key, String.data_append, List.append_assoc,
    List.singleton_append] at hd
  obtain ⟨h1, hrest⟩ := append_colon_inj _ _ _ _
    (colon_not_mem_repr s.width) (colon_not_mem_repr t.width) hd
  obtain ⟨h2, h3⟩ := append_colon_inj _ _ _ _
    (colon_not_mem_repr s.height) (colon_not_mem_repr t.height) hrest
  exact ⟨repr_injective (string_data_inj h1),
    repr_injective (string_data_inj h2),
    repr_injective (string_data_inj h3)⟩

theorem key_congr {s t : BoardState} (h1 : s.width = t.width)
    (h2 : s.height = t.height) (h3 : s.board = t.board) : s.key = t.key := by
  rw [BoardState.key, BoardState.key, h1, h2, h3]

/-- C8: two board states have equal keys exactly when their width,
height and bit pattern all agree; in particular the key is a stable,
deterministic identity. -/
theorem key_inj (s t : BoardState) :
    s.key = t.key ↔ (s.width = t.width ∧ s.height = t.height ∧ s.board = t.board) :=
  ⟨key_fields_eq, fun h => key_congr h.1 h.2.1 h.2.2⟩

/-! ### Solver-level lemmas -/

theorem BoardState.solutionWalk_isEmpty (b : BoardState) :
    b.solutionWalk.isEmpty = false := by
  cases b with
  | mk w h bb st nc nb => cases nb <;> rfl

theorem BoardState.solutionWalk_ne_nil (b : BoardState) :
    b.solutionWalk ≠ [] := by
  cases b with
  | mk w h bb st nc nb => cases nb <;> simp [BoardState.solutionWalk]

/-- Evaluation of the program's first 1×1 query: the walk returned for
the solved query has three states, and the solver ends in `solver11`. -/
theorem run11 :
    LightsOnSolutionAlgorithm.find_solution 10 ⟨[], []⟩ query11
      = some (solver11, some [again11, off11, root11]) := rfl

/-- In every branch, `_find_board_solution` returns exactly the
discovered-set entry for the query's key in the solver state it
returns. -/
theorem find_board_solution_result (fuel : Nat)
    (alg alg' : LightsOnSolutionAlgorithm) (q : BoardState) (r : Option BoardState)
    (h : LightsOnSolutionAlgorithm.find_board_solution fuel alg q = some (alg', r)) :
    r = dictGet alg'.discovered_boards q.key := by
  simp only [LightsOnSolutionAlgorithm.find_board_solution] at h
  cases hq : dictGet alg.discovered_boards q.key with
  | some ex =>
    simp only [hq, Option.some.injEq, Prod.mk.injEq] at h
    rw [← h.2, ← h.1, hq]
  | none =>
    simp only [hq] at h
    cases hs : dictGet alg.discovered_boards
        (BoardState.solution_board q.width q.height).key with
    | some b =>
      simp only [hs, Option.some.injEq, Prod.mk.injEq] at h
      rw [← h.2, ← h.1, hq]
    | none =>
      simp only [hs] at h
      cases hrq : LightsOnSolutionAlgorithm.runQueue fuel
          { alg with board_processing_queue := alg.board_processing_queue
              ++ [BoardState.solution_board q.width q.height] } with
      | none => rw [hrq] at h; exact absurd h (by simp)
      | some alg2 =>
        rw [hrq] at h
        simp only [Option.some.injEq, Prod.mk.injEq] at h
        rw [← h.2, ← h.1]

/-- If the query's key is already discovered, `find_solution` returns
immediately: the walk of the stored node, with the solver unchanged. -/
theorem find_solution_of_found (fuel : Nat) (alg : LightsOnSolutionAlgorithm)
    (q n : BoardState) (h : dictGet alg.discovered_boards q.key = some n) :
    LightsOnSolutionAlgorithm.find_solution fuel alg q
      = some (alg, some n.solutionWalk) := by
  simp only [LightsOnSolutionAlgorithm.find_solution,
    LightsOnSolutionAlgorithm.find_board_solution, h, Option.map_some]
  simp [BoardState.solutionWalk_isEmpty]

/-- If the query's key is absent but the solved board's key for its
dimensions is present, `find_solution` returns `none` with the solver
unchanged. -/
theorem find_solution_no_solution (fuel : Nat) (alg : LightsOnSolutionAlgorithm)
    (q : BoardState)
    (habsent : dictGet alg.discovered_boards q.key = none)
    (hsolved : (dictGet alg.discovered_boards
        (BoardState.solution_board q.width q.height).key).isSome = true) :
    LightsOnSolutionAlgorithm.find_solution fuel alg q = some (alg, none) := by
  obtain ⟨b, hb⟩ := Option.isSome_iff_exists.mp hsolved
  simp only [LightsOnSolutionAlgorithm.find_solution,
    LightsOnSolutionAlgorithm.find_board_solution, habsent, hb, Option.map_some]
  rfl

/-! ### Infrastructure for the caching claim

A completed first query against a fresh solver always leaves the
solved-state key in the discovered-set (for a nonempty board): the root
is processed, its clicked neighbours are recorded and enqueued, and
clicking such a neighbour at the same coordinate returns to the solved
bit pattern, whose key is then recorded.  The lemmas below establish
this by induction over the BFS loop. -/

theorem BoardState.key_withSolution (s : BoardState) (st : Option Nat)
    (nc : Option Coordinates) (nb : Option BoardState) :
    (s.withSolution st nc nb).key = s.key := rfl

theorem BoardState.coordinates_congr {s t : BoardState}
    (hw : s.width = t.width) (hh : s.height = t.height) :
    s.coordinates = t.coordinates := by
  rw [BoardState.coordinates, BoardState.coordinates, hw, hh]

theorem BoardClicker.click_congr {s t : BoardState} (c : Coordinates)
    (hw : s.width = t.width) (hh : s.height = t.height) (hb : s.board = t.board) :
    BoardClicker.click s c = BoardClicker.click t c := by
  cases s with
  | mk w1 h1 b1 st1 nc1 nb1 =>
    cases t with
    | mk w2 h2 b2 st2 nc2 nb2 =>
      simp only [BoardState.width, BoardState.height, BoardState.board] at hw hh hb
      subst hw
      subst hh
      subst hb
      rfl

/-- Clicking the same coordinate twice restores width, height and bit
pattern. -/
theorem BoardClicker.click_click_fields (s : BoardState) (c : Coordinates) :
    (BoardClicker.click (BoardClicker.click s c) c).width = s.width ∧
    (BoardClicker.click (BoardClicker.click s c) c).height = s.height ∧
    (BoardClicker.click (BoardClicker.click s c) c).board = s.board := by
  cases s with
  | mk w h b st nc nb =>
    refine ⟨rfl, rfl, ?_⟩
    simp [BoardClicker.click, BoardState.invert, BoardState.board, BoardState.width,
      BoardState.height, BoardState.invert_mask, BoardState.valid_coordinates,
      BoardState.coordinates_bit, Nat.xor_cancel_right]

theorem BoardState.zero_mem_coordinates (s : BoardState)
    (hw : 1 ≤ s.width) (hh : 1 ≤ s.height) :
    ((0 : Int), (0 : Int)) ∈ s.coordinates := by
  rw [BoardState.coordinates]
  exact List.mem_flatMap_of_mem (List.mem_range.mpr hw)
    (List.mem_map_of_mem _ (List.mem_range.mpr hh))

theorem dictGet_nil (k : String) : dictGet [] k = none := rfl

theorem dictGet_append (d1 d2 : List (String × BoardState)) (k : String) :
    dictGet (d1 ++ d2) k = (dictGet d1 k).or (dictGet d2 k) := by
  rw [dictGet, List.find?_append]
  cases hd : d1.find? fun p => p.1 == k <;> simp [dictGet, hd]

theorem dictGet_singleton (k : String) (v : BoardState) :
    dictGet [(k, v)] k = some v := by
  simp [dictGet]

theorem dictGet_cons (x : String × BoardState) (l : List (String × BoardState))
    (k : String) :
    dictGet (x :: l) k = if (x.1 == k) = true then some x.2 else dictGet l k := by
  by_cases h : (x.1 == k) = true
  · rw [if_pos h]
    simp [dictGet, h]
  · rw [if_neg h]
    simp [dictGet, h]

theorem dictSet_cons (p : String × BoardState) (t : List (String × BoardState))
    (k' : String) (v : BoardState) :
    dictSet (p :: t) k' v
      = (if (p.1 == k') = true then (p.1, v) else p) :: dictSet t k' v := rfl

theorem isSome_dictGet_dictSet (d : List (String × BoardState))
    (k' : String) (v : BoardState) (k : String) :
    (dictGet (dictSet d k' v) k).isSome = (dictGet d k).isSome := by
  induction d with
  | nil => rfl
  | cons p t ih =>
    have hfst : (if (p.1 == k') = true then (p.1, v) else p).1 = p.1 := by
      split <;> rfl
    rw [dictSet_cons, dictGet_cons, dictGet_cons, hfst]
    by_cases hpk : (p.1 == k) = true
    · rw [if_pos hpk, if_pos hpk]
      rfl
    · rw [if_neg hpk, if_neg hpk]
      exact ih

theorem dictGet_dictSet_cases (d : List (String × BoardState))
    (k' : String) (v : BoardState) (k : String) (u : BoardState)
    (h : dictGet (dictSet d k' v) k = some u) :
    (u = v ∧ k = k') ∨ dictGet d k = some u := by
  induction d with
  | nil => exact absurd h (by simp [dictSet, dictGet])
  | cons p t ih =>
    have hfst : (if (p.1 == k') = true then (p.1, v) else p).1 = p.1 := by
      split <;> rfl
    rw [dictSet_cons, dictGet_cons, hfst] at h
    by_cases hpk : (p.1 == k) = true
    · rw [if_pos hpk] at h
      by_cases hpk' : (p.1 == k') = true
      · rw [if_pos hpk'] at h
        injection h with h'
        exact Or.inl ⟨h'.symm, (eq_of_beq hpk).symm.trans (eq_of_beq hpk')⟩
      · rw [if_neg hpk'] at h
        exact Or.inr (by rw [dictGet_cons, if_pos hpk]; exact h)
    · rw [if_neg hpk] at h
      rcases ih h with hc | hc
      · exact Or.inl hc
      · exact Or.inr (by rw [dictGet_cons, if_neg hpk]; exact hc)

namespace LightsOnSolutionAlgorithm

theorem key_potentialNewBoard (bs : BoardState) (c : Coordinates) :
    (potentialNewBoard bs c).key = (BoardClicker.click bs c).key :=
  BoardState.key_withSolution _ _ _ _

theorem keyMem_processClick_mono (alg : LightsOnSolutionAlgorithm)
    (bs : BoardState) (c : Coordinates) (k : String)
    (h : (dictGet alg.discovered_boards k).isSome = true) :
    (dictGet (alg.processClick bs c).discovered_boards k).isSome = true := by
  rw [processClick]
  split
  · obtain ⟨v, hv⟩ := Option.isSome_iff_exists.mp h
    simp only [dictGet_append, hv]
    rfl
  · split
    · simp only [isSome_dictGet_dictSet]
      exact h
    · exact h

theorem queueMem_processClick (alg : LightsOnSolutionAlgorithm)
    (bs : BoardState) (c : Coordinates) (b : BoardState)
    (h : b ∈ alg.board_processing_queue) :
    b ∈ (alg.processClick bs c).board_processing_queue := by
  rw [processClick]
  split
  · exact List.mem_append_left _ h
  · split
    · exact h
    · exact h

theorem keyMem_processClick_self (alg : LightsOnSolutionAlgorithm)
    (bs : BoardState) (c : Coordinates) :
    (dictGet (alg.processClick bs c).discovered_boards
      ((BoardClicker.click bs c).key)).isSome = true := by
  rw [processClick, ← key_potentialNewBoard bs c]
  split
  · rename_i hd
    simp only [dictGet_append, hd, dictGet_singleton]
    rfl
  · rename_i e hd
    split
    · simp only [isSome_dictGet_dictSet, hd]
      rfl
    · rw [hd]
      rfl

theorem processClick_new_key (alg : LightsOnSolutionAlgorithm)
    (bs : BoardState) (c : Coordinates) (k : String)
    (h : (dictGet (alg.processClick bs c).discovered_boards k).isSome = true) :
    (dictGet alg.discovered_boards k).isSome = true ∨
    ∃ p, p ∈ (alg.processClick bs c).board_processing_queue ∧ p.key = k := by
  rw [processClick] at h ⊢
  split at h
  · rename_i hd
    simp only [hd]
    simp only [dictGet_append] at h
    cases hda : dictGet alg.discovered_boards k with
    | some w => exact Or.inl rfl
    | none =>
      rw [hda] at h
      simp only [Option.none_or, dictGet_cons] at h
      by_cases hk : ((potentialNewBoard bs c).key == k) = true
      · refine Or.inr ⟨potentialNewBoard bs c, ?_, eq_of_beq hk⟩
        exact List.mem_append_right _ (List.mem_cons_self _ _)
      · rw [if_neg hk, dictGet_nil] at h
        exact absurd h (by simp)
  · rename_i e hd
    split at h
    · exact Or.inl (by simpa only [isSome_dictGet_dictSet] using h)
    · exact Or.inl h

theorem wellKeyed_processClick (alg : LightsOnSolutionAlgorithm)
    (bs : BoardState) (c : Coordinates) (h : WellKeyed alg) :
    WellKeyed (alg.processClick bs c) := by
  intro k v hv
  rw [processClick] at hv
  split at hv
  · simp only [dictGet_append] at hv
    cases hda : dictGet alg.discovered_boards k with
    | some u =>
      rw [hda] at hv
      injection hv with hv'
      exact hv' ▸ h k u hda
    | none =>
      rw [hda] at hv
      rw [dictGet_cons] at hv
      by_cases hk : ((potentialNewBoard bs c).key == k) = true
      · rw [if_pos hk] at hv
        injection hv with hv'
        rw [← hv']
        exact eq_of_beq hk
      · rw [if_neg hk, dictGet_nil] at hv
        exact absurd hv (by simp)
  · split at hv
    · rcases dictGet_dictSet_cases _ _ _ _ _ hv with ⟨hv1, hv2⟩ | hv1
      · rw [hv1, hv2]
      · exact h k v hv1
    · exact h k v hv

theorem keyMem_foldClick_mono (l : List Coordinates) (bs : BoardState) :
    ∀ (alg : LightsOnSolutionAlgorithm) (k : String),
      (dictGet alg.discovered_boards k).isSome = true →
      (dictGet ((l.foldl (fun a c => a.processClick bs c) alg)).discovered_boards
        k).isSome = true := by
  induction l with
  | nil => exact fun alg k h => h
  | cons a t ih =>
    intro alg k h
    exact ih _ k (keyMem_processClick_mono alg bs a k h)

theorem queueMem_foldClick (l : List Coordinates) (bs : BoardState) :
    ∀ (alg : LightsOnSolutionAlgorithm) (b : BoardState),
      b ∈ alg.board_processing_queue →
      b ∈ ((l.foldl (fun a c => a.processClick bs c) alg)).board_processing_queue := by
  induction l with
  | nil => exact fun alg b h => h
  | cons a t ih =>
    intro alg b h
    exact ih _ b (queueMem_processClick alg bs a b h)

theorem keyMem_foldClick_click (l : List Coordinates) (bs : BoardState) :
    ∀ (alg : LightsOnSolutionAlgorithm) (c : Coordinates), c ∈ l →
      (dictGet ((l.foldl (fun a c => a.processClick bs c) alg)).discovered_boards
        ((BoardClicker.click bs c).key)).isSome = true := by
  induction l with
  | nil =>
    intro alg c h
    exact absurd h (List.not_mem_nil c)
  | cons a t ih =>
    intro alg c h
    rcases List.mem_cons.mp h with rfl | ht
    · exact keyMem_foldClick_mono t bs _ _ (keyMem_processClick_self alg bs c)
    · exact ih _ c ht

theorem wellKeyed_foldClick (l : List Coordinates) (bs : BoardState) :
    ∀ (alg : LightsOnSolutionAlgorithm), WellKeyed alg →
      WellKeyed (l.foldl (fun a c => a.processClick bs c) alg) := by
  induction l with
  | nil => exact fun alg h => h
  | cons a t ih =>
    intro alg h
    exact ih _ (wellKeyed_processClick alg bs a h)

theorem foldClick_new_key (l : List Coordinates) (bs : BoardState) :
    ∀ (alg : LightsOnSolutionAlgorithm) (k : String),
      (dictGet ((l.foldl (fun a c => a.processClick bs c) alg)).discovered_boards
        k).isSome = true →
      (dictGet alg.discovered_boards k).isSome = true ∨
      ∃ p, p ∈ ((l.foldl (fun a c => a.processClick bs c) alg)).board_processing_queue
        ∧ p.key = k := by
  induction l with
  | nil => exact fun alg k h => Or.inl h
  | cons a t ih =>
    intro alg k h
    rcases ih (alg.processClick bs a) k h with h1 | h1
    · rcases processClick_new_key alg bs a k h1 with h2 | ⟨p, hpq, hpk⟩
      · exact Or.inl h2
      · exact Or.inr ⟨p, queueMem_foldClick t bs _ p hpq, hpk⟩
    · exact Or.inr h1

theorem runQueue_mono (fuel : Nat) :
    ∀ (alg alg' : LightsOnSolutionAlgorithm) (k : String),
      runQueue fuel alg = some alg' →
      (dictGet alg.discovered_boards k).isSome = true →
      (dictGet alg'.discovered_boards k).isSome = true := by
  induction fuel with
  | zero =>
    rintro ⟨d, qu⟩ alg' k h hk
    cases qu with
    | nil =>
      have h' : some (⟨d, []⟩ : LightsOnSolutionAlgorithm) = some alg' := h
      injection h' with h''
      exact h'' ▸ hk
    | cons x t =>
      have h' : (none : Option LightsOnSolutionAlgorithm) = some alg' := h
      exact Option.noConfusion h'
  | succ fuel ih =>
    rintro ⟨d, qu⟩ alg' k h hk
    cases qu with
    | nil =>
      have h' : some (⟨d, []⟩ : LightsOnSolutionAlgorithm) = some alg' := h
      injection h' with h''
      exact h'' ▸ hk
    | cons current rest =>
      have h' : runQueue fuel (process_board_state ⟨d, rest⟩ current) = some alg' := h
      refine ih _ alg' k h' ?_
      rw [process_board_state]
      exact keyMem_foldClick_mono _ _ _ k hk

theorem wellKeyed_runQueue (fuel : Nat) :
    ∀ (alg alg' : LightsOnSolutionAlgorithm),
      runQueue fuel alg = some alg' → WellKeyed alg → WellKeyed alg' := by
  induction fuel with
  | zero =>
    rintro ⟨d, qu⟩ alg' h hwk
    cases qu with
    | nil =>
      have h' : some (⟨d, []⟩ : LightsOnSolutionAlgorithm) = some alg' := h
      injection h' with h''
      exact h'' ▸ hwk
    | cons x t =>
      have h' : (none : Option LightsOnSolutionAlgorithm) = some alg' := h
      exact Option.noConfusion h'
  | succ fuel ih =>
    rintro ⟨d, qu⟩ alg' h hwk
    cases qu with
    | nil =>
      have h' : some (⟨d, []⟩ : LightsOnSolutionAlgorithm) = some alg' := h
      injection h' with h''
      exact h'' ▸ hwk
    | cons current rest =>
      have h' : runQueue fuel (process_board_state ⟨d, rest⟩ current) = some alg' := h
      refine ih _ alg' h' ?_
      rw [process_board_state]
      exact wellKeyed_foldClick _ _ _ hwk

theorem runQueue_processes (fuel : Nat) :
    ∀ (alg alg' : LightsOnSolutionAlgorithm),
      runQueue fuel alg = some alg' →
      ∀ b ∈ alg.board_processing_queue, ∀ c ∈ b.coordinates,
        (dictGet alg'.discovered_boards
          ((BoardClicker.click b c).key)).isSome = true := by
  induction fuel with
  | zero =>
    rintro ⟨d, qu⟩ alg' h b hb c hc
    cases qu with
    | nil => exact absurd hb (List.not_mem_nil b)
    | cons x t =>
      have h' : (none : Option LightsOnSolutionAlgorithm) = some alg' := h
      exact Option.noConfusion h'
  | succ fuel ih =>
    rintro ⟨d, qu⟩ alg' h b hb c hc
    cases qu with
    | nil => exact absurd hb (List.not_mem_nil b)
    | cons current rest =>
      have h' : runQueue fuel (process_board_state ⟨d, rest⟩ current) = some alg' := h
      rcases List.mem_cons.mp hb with rfl | hbr
      · refine runQueue_mono fuel _ alg' _ h' ?_
        rw [process_board_state]
        exact keyMem_foldClick_click _ _ _ c hc
      · refine ih _ alg' h' b ?_ c hc
        rw [process_board_state]
        exact queueMem_foldClick _ _ _ b hbr

theorem runQueue_closure (fuel : Nat) :
    ∀ (alg alg' : LightsOnSolutionAlgorithm),
      runQueue fuel alg = some alg' → WellKeyed alg →
      ∀ k v, dictGet alg'.discovered_boards k = some v →
        (dictGet alg.discovered_boards k).isSome = true ∨
        ∀ c ∈ v.coordinates,
          (dictGet alg'.discovered_boards
            ((BoardClicker.click v c).key)).isSome = true := by
  induction fuel with
  | zero =>
    rintro ⟨d, qu⟩ alg' h hwk k v hv
    cases qu with
    | nil =>
      have h' : some (⟨d, []⟩ : LightsOnSolutionAlgorithm) = some alg' := h
      injection h' with h''
      subst h''
      exact Or.inl (by rw [hv]; rfl)
    | cons x t =>
      have h' : (none : Option LightsOnSolutionAlgorithm) = some alg' := h
      exact Option.noConfusion h'
  | succ fuel ih =>
    rintro ⟨d, qu⟩ alg' h hwk k v hv
    cases qu with
    | nil =>
      have h' : some (⟨d, []⟩ : LightsOnSolutionAlgorithm) = some alg' := h
      injection h' with h''
      subst h''
      exact Or.inl (by rw [hv]; rfl)
    | cons current rest =>
      have h' : runQueue fuel (process_board_state ⟨d, rest⟩ current) = some alg' := h
      have hwk2 : WellKeyed (process_board_state ⟨d, rest⟩ current) := by
        rw [process_board_state]
        exact wellKeyed_foldClick _ _ _ hwk
      rcases ih _ alg' h' hwk2 k v hv with h1 | h1
      · rw [process_board_state] at h1
        rcases foldClick_new_key current.coordinates current
            ⟨d, rest⟩ k h1 with h2 | ⟨p, hpq, hpk⟩
        · exact Or.inl h2
        · refine Or.inr ?_
          have hp : ∀ c ∈ p.coordinates,
              (dictGet alg'.discovered_boards
                ((BoardClicker.click p c).key)).isSome = true := by
            intro c hc
            refine runQueue_processes fuel _ alg' h' p ?_ c hc
            rw [process_board_state]
            exact hpq
          have hwk' : WellKeyed alg' := wellKeyed_runQueue fuel _ alg' h' hwk2
          have hvk : v.key = k := hwk' k v hv
          have hfields := key_fields_eq (hvk.trans hpk.symm)
          intro c hc
          rw [BoardClicker.click_congr c hfields.1 hfields.2.1 hfields.2.2]
          exact hp c (by
            rw [← BoardState.coordinates_congr hfields.1 hfields.2.1]
            exact hc)
      · exact Or.inr h1

/-- After a completed BFS run seeded with the solved board of a
nonempty size, the solved board's key is recorded in the discovered-set
(it is re-discovered two clicks from the root). -/
theorem solved_key_after_run (fuel w h : Nat) (hw : 1 ≤ w) (hh : 1 ≤ h)
    (alg' : LightsOnSolutionAlgorithm)
    (hrun : runQueue fuel ⟨[], [BoardState.solution_board w h]⟩ = some alg') :
    (dictGet alg'.discovered_boards
      (BoardState.solution_board w h).key).isSome = true := by
  have hc0 : ((0 : Int), (0 : Int)) ∈ (BoardState.solution_board w h).coordinates :=
    BoardState.zero_mem_coordinates _ hw hh
  have h1 := runQueue_processes fuel _ alg' hrun (BoardState.solution_board w h)
    (List.mem_cons_self _ _) ((0 : Int), (0 : Int)) hc0
  obtain ⟨v1, hv1⟩ := Option.isSome_iff_exists.mp h1
  have hwkinit : WellKeyed ⟨[], [BoardState.solution_board w h]⟩ := by
    intro k v hkv
    exact absurd hkv (by rw [dictGet_nil]; simp)
  have hwk' : WellKeyed alg' := wellKeyed_runQueue fuel _ alg' hrun hwkinit
  have hv1key : v1.key
      = (BoardClicker.click (BoardState.solution_board w h) (0, 0)).key :=
    hwk' _ _ hv1
  rcases runQueue_closure fuel _ alg' hrun hwkinit _ _ hv1 with hcontra | hclicks
  · rw [show dictGet (⟨[], [BoardState.solution_board w h]⟩ :
        LightsOnSolutionAlgorithm).discovered_boards
        ((BoardClicker.click (BoardState.solution_board w h) (0, 0)).key)
        = none from rfl] at hcontra
    exact absurd hcontra (by simp)
  · have hfields := key_fields_eq hv1key
    have hc0' : ((0 : Int), (0 : Int)) ∈ v1.coordinates := by
      rw [BoardState.coordinates_congr hfields.1 hfields.2.1,
        BoardState.coordinates_congr (BoardClicker.width_click _ _)
          (BoardClicker.height_click _ _)]
      exact hc0
    have h2 := hclicks ((0 : Int), (0 : Int)) hc0'
    have hcc : BoardClicker.click v1 (0, 0)
        = BoardClicker.click
            (BoardClicker.click (BoardState.solution_board w h) (0, 0)) (0, 0) :=
      BoardClicker.click_congr _ hfields.1 hfields.2.1 hfields.2.2
    obtain ⟨f1, f2, f3⟩ :=
      BoardClicker.click_click_fields (BoardState.solution_board w h) (0, 0)
    rw [hcc, key_congr f1 f2 f3] at h2
    exact h2

end LightsOnSolutionAlgorithm

/-! ### The claims about the solver -/

/-- C7: when the search state for the query's dimensions is exhausted
(frontier queue empty, solved-state key recorded in the discovered-set)
and the query's key is absent, `find_solution` returns the no-solution
outcome `none` — an ordinary return value, not an exception — and the
solver state is completely unchanged: no search is re-run. -/
theorem exhausted_no_solution (fuel : Nat) (alg : LightsOnSolutionAlgorithm)
    (q : BoardState)
    (hqueue : alg.board_processing_queue = [])
    (habsent : dictGet alg.discovered_boards q.key = none)
    (hsolved : (dictGet alg.discovered_boards
        (BoardState.solution_board q.width q.height).key).isSome = true) :
    LightsOnSolutionAlgorithm.find_solution fuel alg q = some (alg, none) :=
  find_solution_no_solution fuel alg q habsent hsolved

/-- Witness for C7: after the 1×1 search, the undiscoverable query
"1:1:2" gets the no-solution outcome without any state change. -/
theorem exhausted_no_solution_witness :
    solver11.board_processing_queue = [] ∧
    dictGet solver11.discovered_boards query112.key = none ∧
    (dictGet solver11.discovered_boards
        (BoardState.solution_board query112.width query112.height).key).isSome = true ∧
    LightsOnSolutionAlgorithm.find_solution 10 solver11 query112 = some (solver11, none) :=
  ⟨rfl, rfl, rfl, exhausted_no_solution 10 solver11 query112 rfl rfl rfl⟩

/-- C9: issuing the same query twice against one solver instance — the
freshly constructed solver, whose first call completed (the fuel
parameter is the modeling artifact of the source's unbounded while
loop) — returns the same result and leaves the solver state untouched:
the discovered-set does not grow and no BFS expansion occurs.  The
second call is answered from the early-return branches alone (query
found, or unreachable with the solved-state key recorded), so `fuel2`
is arbitrary. -/
theorem repeat_query_cached (fuel1 fuel2 : Nat) (q : BoardState)
    (alg1 : LightsOnSolutionAlgorithm) (r1 : Option (List BoardState))
    (hw : 1 ≤ q.width) (hh : 1 ≤ q.height)
    (h1 : LightsOnSolutionAlgorithm.find_solution fuel1 ⟨[], []⟩ q
      = some (alg1, r1)) :
    LightsOnSolutionAlgorithm.find_solution fuel2 alg1 q = some (alg1, r1) := by
  have hnil : ∀ kk, dictGet
      (⟨[], []⟩ : LightsOnSolutionAlgorithm).discovered_boards kk = none :=
    fun kk => rfl
  simp only [LightsOnSolutionAlgorithm.find_solution,
    LightsOnSolutionAlgorithm.find_board_solution, hnil, List.nil_append] at h1
  cases hrq : LightsOnSolutionAlgorithm.runQueue fuel1
      ⟨[], [BoardState.solution_board q.width q.height]⟩ with
  | none =>
    rw [hrq] at h1
    exact absurd h1 (by simp)
  | some alg2 =>
    rw [hrq] at h1
    simp only [Option.map_some', Option.some.injEq, Prod.mk.injEq] at h1
    obtain ⟨ha, hr⟩ := h1
    subst ha
    have hsolved := LightsOnSolutionAlgorithm.solved_key_after_run
      fuel1 q.width q.height hw hh alg2 hrq
    cases hq2 : dictGet alg2.discovered_boards q.key with
    | some n =>
      rw [hq2] at hr
      simp only [BoardState.solutionWalk_isEmpty, Bool.false_eq_true,
        if_false] at hr
      rw [find_solution_of_found fuel2 alg2 q n hq2, hr]
    | none =>
      rw [hq2] at hr
      have hr' : (none : Option (List BoardState)) = r1 := hr
      rw [← hr']
      exact find_solution_no_solution fuel2 alg2 q hq2 hsolved

/-- Witness for C9: repeating the 1×1 solved-state query against the
solver state left by the first call reproduces the first result with no
state change. -/
theorem repeat_query_cached_witness :
    LightsOnSolutionAlgorithm.find_solution 10 solver11 query11
      = some (solver11, some [again11, off11, root11]) :=
  repeat_query_cached 10 10 query11 solver11 (some [again11, off11, root11])
    (by decide) (by decide) run11

/-- C10: `find_solution` reads only the query's `width`, `height` and
bit pattern — the query's solution-metadata fields are irrelevant to
the call (all solution metadata lives on the solver's own boards, and
the pure embedding makes the absence of mutation of the query
implicit) — and a successful result is never the empty list. -/
theorem find_solution_query_frame (fuel : Nat)
    (alg alg' : LightsOnSolutionAlgorithm) (q1 q2 : BoardState)
    (r : Option (List BoardState))
    (hw : q1.width = q2.width) (hh : q1.height = q2.height) (hb : q1.board = q2.board)
    (h : LightsOnSolutionAlgorithm.find_solution fuel alg q1 = some (alg', r)) :
    LightsOnSolutionAlgorithm.find_solution fuel alg q2 = some (alg', r) ∧
    r ≠ some [] := by
  have hk : q1.key = q2.key := by
    rw [BoardState.key, BoardState.key, hw, hh, hb]
  constructor
  · have hsame : LightsOnSolutionAlgorithm.find_solution fuel alg q2
        = LightsOnSolutionAlgorithm.find_solution fuel alg q1 := by
      simp only [LightsOnSolutionAlgorithm.find_solution,
        LightsOnSolutionAlgorithm.find_board_solution, hk, hw, hh]
    rw [hsame, h]
  · rw [LightsOnSolutionAlgorithm.find_solution] at h
    cases hfb : LightsOnSolutionAlgorithm.find_board_solution fuel alg q1 with
    | none => rw [hfb] at h; exact absurd h (by simp)
    | some p =>
      obtain ⟨a2, r2⟩ := p
      rw [hfb] at h
      simp only [Option.map_some', Option.some.injEq, Prod.mk.injEq] at h
      cases r2 with
      | none =>
        rw [← h.2]
        simp
      | some n =>
        rw [← h.2]
        simp only [BoardState.solutionWalk_isEmpty, Bool.false_eq_true, if_false]
        intro hcontra
        exact BoardState.solutionWalk_ne_nil n (by injection hcontra)

/-- Witness for C10: attaching junk metadata to the 1×1 solved-state
query does not change the result of the first call, and that result is
not the empty list. -/
theorem find_solution_query_frame_witness :
    LightsOnSolutionAlgorithm.find_solution 10 ⟨[], []⟩ query11meta
      = some (solver11, some [again11, off11, root11]) ∧
    some [again11, off11, root11] ≠ some ([] : List BoardState) :=
  find_solution_query_frame 10 ⟨[], []⟩ solver11 query11 query11meta
    (some [again11, off11, root11]) rfl rfl rfl run11

/-! ### The root-insertion defect (claims C1, C2, C3)

`_find_board_solution` appends the solved root board to the processing
queue but never inserts it into `discovered_boards` (only clicked
boards are inserted, in `_process_board_state`).  The solved bit
pattern is therefore first *inserted* when BFS re-reaches it two clicks
later, so the discovered-set entry under the solved key records
distance 2 with a predecessor — contradicting the source's own
documentation (`discovered_boards` "contains boards that are in the
processing queue", `steps_from_solution` is "how many steps this
BoardState is from being solved", and the script header promises "the
solution requiring the fewest number of steps"). -/

/-- C1 (code bug, 1×1 evaluation): after searching the 1×1 size, the
discovered-set entry under the solved state's key "1:1:1" has
`steps_from_solution = 2` and a predecessor — not distance 0 and no
predecessor — and `find_solution` on the solved query returns a
three-state sequence instead of the one-element sequence the claim
requires. -/
theorem solved_entry_distance_bug :
    LightsOnSolutionAlgorithm.find_solution 10 ⟨[], []⟩ query11
      = some (solver11, some [again11, off11, root11]) ∧
    query11.key = (BoardState.solution_board 1 1).key ∧
    dictGet solver11.discovered_boards (BoardState.solution_board 1 1).key
      = some again11 ∧
    again11.steps_from_solution = some 2 ∧
    again11.next_solution_board = some off11 ∧
    [again11, off11, root11].length = 3 :=
  ⟨rfl, rfl, rfl, rfl, rfl, rfl⟩

/-- C2 (code bug, 1×1 evaluation): the solved 1×1 query gets a solution
whose click sequence has length 2 (three states, clicks (0,0) then
(0,0)); applying those clicks does return to the solved pattern in two
steps, but the query already equals the solved state, so the minimum
number of clicks is 0 ≠ 2 — the returned length is not minimal. -/
theorem solved_query_not_minimal :
    LightsOnSolutionAlgorithm.find_solution 10 ⟨[], []⟩ query11
      = some (solver11, some [again11, off11, root11]) ∧
    query11.pyEq (BoardState.solution_board 1 1) = true ∧
    again11.next_solution_coordinates = some (0, 0) ∧
    off11.next_solution_coordinates = some (0, 0) ∧
    (BoardClicker.click (BoardClicker.click query11 (0, 0)) (0, 0)).pyEq
        (BoardState.solution_board 1 1) = true ∧
    (2 : Nat) ≠ 0 :=
  ⟨rfl, rfl, rfl, rfl, rfl, by decide⟩

/-- C3 (code bug, 1×1 evaluation): the discovered entry for "1:1:0"
records distance 1 and predecessor `root11` whose key is "1:1:1", but
the discovered-set entry under "1:1:1" records distance 2, and
1 ≠ 2 + 1: the recorded distance does not equal 1 plus the distance of
the discovered-set entry reached via the predecessor's key. -/
theorem distance_link_bug :
    LightsOnSolutionAlgorithm.find_solution 10 ⟨[], []⟩ query11
      = some (solver11, some [again11, off11, root11]) ∧
    dictGet solver11.discovered_boards "1:1:0" = some off11 ∧
    off11.steps_from_solution = some 1 ∧
    off11.next_solution_board = some root11 ∧
    root11.key = "1:1:1" ∧
    dictGet solver11.discovered_boards "1:1:1" = some again11 ∧
    again11.steps_from_solution = some 2 ∧
    (1 : Nat) ≠ 2 + 1 :=
  ⟨rfl, rfl, rfl, rfl, rfl, rfl, rfl, by decide⟩

/-- Witness for the amended C6 at the concrete 2×2 board of the
counterexample. -/
theorem is_set_no_bounds_check_witness :
    (BoardState.mk 2 2 4 none none none).valid_coordinates
        (((BoardState.mk 2 2 4 none none none).width : Int), 0) = false ∧
    (BoardState.mk 2 2 4 none none none).valid_coordinates ((0 : Int), (1 : Int)) = true ∧
    (BoardState.mk 2 2 4 none none none).is_set
        (((BoardState.mk 2 2 4 none none none).width : Int), 0) =
      (BoardState.mk 2 2 4 none none none).is_set ((0 : Int), (1 : Int)) :=
  is_set_no_bounds_check (BoardState.mk 2 2 4 none none none) (by decide) (by decide)
